import Mathlib

-- Verification of the quant-lake-core ingestion pipeline.
-- Shallow embedding of the data model, persistence upsert, instrument
-- resolution, fetch normalization and the per-symbol orchestration loops,
-- translated from the Python sources (scripts/run_crypto_etl.py,
-- scripts/run_yahoo_etl.py, src/data_ingestion/base.py,
-- src/data_ingestion/yahoo/yfinance_fetcher.py,
-- src/data_ingestion/stocks/yfinance_fetcher.py,
-- src/database/models.py), together with a spec-modelled pagination loop
-- for the BinanceFetcher class whose module is absent from the tree.

set_option maxHeartbeats 1000000

namespace QuantLake

-- ---------------------------------------------------------------------------
-- Error taxonomy (exceptions raised by the Python layers)
-- ---------------------------------------------------------------------------

/-- Errors surfaced by the pipeline: provider fetch failures (RuntimeError in
the fetchers), SQLAlchemy MultipleResultsFound from one_or_none, ValueError
from validate_dataframe (ValidationFailed), pandas KeyError on a missing
column, and store-level persistence failures. -/
inductive Err where
  | providerFetchFailed (symbol : String)
  | multipleResultsFound
  | validationFailed (missing : List String)
  | keyError (col : String)
  | persistenceFailed
deriving DecidableEq, Repr

deriving instance DecidableEq for Except

-- ---------------------------------------------------------------------------
-- AssetClass enum, from src/database/models.py lines 37-46
-- ---------------------------------------------------------------------------

/-- Enumeration for asset classes, translated from the Python str-enum
AssetClass in src/database/models.py (constructors exactly as in the code). -/
inductive AssetClass where
  | CRYPTO
  | STOCK
  | FOREX
  | COMMODITY
deriving DecidableEq, Repr

/-- The string value carried by each member of the Python str-enum. -/
def AssetClass.value : AssetClass → String
  | .CRYPTO => "CRYPTO"
  | .STOCK => "STOCK"
  | .FOREX => "FOREX"
  | .COMMODITY => "COMMODITY"

/-- Enumeration of all AssetClass members, in declaration order. -/
def allAssetClasses : List AssetClass :=
  [.CRYPTO, .STOCK, .FOREX, .COMMODITY]

theorem assetClass_mem_all (c : AssetClass) : c ∈ allAssetClasses := by
  cases c <;> simp [allAssetClasses]

-- ---------------------------------------------------------------------------
-- Market quote store (market_quotes table keyed by (time, asset_id))
-- ---------------------------------------------------------------------------

/-- Primary key of the market_quotes hypertable: (time, asset_id). -/
structure QKey where
  time : Int
  assetId : Nat
deriving DecidableEq, Repr

/-- The OHLCV payload columns of a market_quotes row. -/
structure OHLCV where
  openV : Int
  highV : Int
  lowV : Int
  closeV : Int
  volumeV : Int
deriving DecidableEq, Repr

/-- The market_quotes table, abstracted as a partial map from its primary
key to the payload columns. -/
def QuoteStore : Type := QKey → Option OHLCV

/-- One ON CONFLICT DO UPDATE row write: if a row with the key exists its
payload is overwritten, otherwise the row is inserted. -/
def upsertQuote (q : QuoteStore) (k : QKey) (v : OHLCV) : QuoteStore :=
  fun k' => if k' = k then some v else q k'

/-- The bulk upsert statement built in save_market_data: each record of the
DataFrame becomes one insert-or-overwrite keyed by (time, asset_id). -/
def saveQuotes (q : QuoteStore) (assetId : Nat) (recs : List (Int × OHLCV)) :
    QuoteStore :=
  recs.foldl (fun acc r => upsertQuote acc ⟨r.1, assetId⟩ r.2) q

/-- save_market_data from scripts/run_crypto_etl.py lines 100-149 and
scripts/run_yahoo_etl.py lines 105-152: returns 0 on an empty frame,
otherwise executes the bulk upsert and returns the record count. -/
def save_market_data (q : QuoteStore) (assetId : Nat)
    (recs : List (Int × OHLCV)) : QuoteStore × Nat :=
  if recs.isEmpty then (q, 0)
  else (saveQuotes q assetId recs, recs.length)

/-- The payload of the last record in the batch carrying a given time, the
row that a later write of the same batch would leave in place. -/
def lastWith (recs : List (Int × OHLCV)) (t : Int) : Option OHLCV :=
  (recs.reverse.find? (fun r => decide (r.1 = t))).map Prod.snd

theorem lastWith_cons (r : Int × OHLCV) (recs : List (Int × OHLCV)) (t : Int) :
    lastWith (r :: recs) t =
      match lastWith recs t with
      | some v => some v
      | none => if r.1 = t then some r.2 else none := by
  simp only [lastWith, List.reverse_cons, List.find?_append]
  cases h : recs.reverse.find? (fun x => decide (x.1 = t)) with
  | none =>
      simp only [Option.map_none, List.find?_cons, List.find?_nil]
      by_cases ht : r.1 = t <;> simp [ht]
  | some v => simp

theorem saveQuotes_char (recs : List (Int × OHLCV)) :
    ∀ (q : QuoteStore) (a : Nat) (k : QKey),
      saveQuotes q a recs k =
        if k.assetId = a then
          match lastWith recs k.time with
          | some v => some v
          | none => q k
        else q k := by
  induction recs with
  | nil =>
      intro q a k
      simp [saveQuotes, lastWith]
  | cons r recs ih =>
      intro q a k
      have hstep : saveQuotes q a (r :: recs) =
          saveQuotes (upsertQuote q ⟨r.1, a⟩ r.2) a recs := by
        simp [saveQuotes]
      rw [hstep, ih, lastWith_cons]
      by_cases ha : k.assetId = a
      · simp only [ha, if_true]
        cases hl : lastWith recs k.time with
        | some v => simp
        | none =>
            simp only [upsertQuote]
            by_cases ht : r.1 = k.time
            · have hk : k = ⟨r.1, a⟩ := by
                cases k with
                | mk kt ki =>
                    simp only [QKey.mk.injEq]
                    exact ⟨(by simpa using ht.symm), by simpa using ha⟩
              rw [if_pos hk, if_pos ht]
            · have hk : ¬ (k = ⟨r.1, a⟩) := by
                intro hcon
                apply ht
                rw [hcon]
              rw [if_neg hk, if_neg ht]
      · simp only [ha, if_false]
        simp only [upsertQuote]
        have hk : k ≠ ⟨r.1, a⟩ := by
          intro hcon
          apply ha
          rw [hcon]
        simp [hk]

theorem saveQuotes_idem (q : QuoteStore) (a : Nat)
    (recs : List (Int × OHLCV)) :
    saveQuotes (saveQuotes q a recs) a recs = saveQuotes q a recs := by
  funext k
  rw [saveQuotes_char, saveQuotes_char]
  by_cases ha : k.assetId = a
  · simp only [ha, if_true]
    cases hl : lastWith recs k.time with
    | some v => simp
    | none => simp
  · simp [ha]

/-- C1. Upsert idempotence: running save_market_data twice on the same
record batch leaves exactly the stored rows of a single run, existing
(time, asset_id) rows are overwritten with the payload of the most recent
record for that key, and absent rows are inserted. -/
theorem upsert_idempotent (q : QuoteStore) (a : Nat)
    (recs : List (Int × OHLCV)) :
    (save_market_data (save_market_data q a recs).1 a recs).1 =
        (save_market_data q a recs).1 ∧
      (∀ k : QKey, (save_market_data q a recs).1 k =
        if k.assetId = a then
          match lastWith recs k.time with
          | some v => some v
          | none => q k
        else q k) := by
  constructor
  · by_cases h : recs.isEmpty
    · simp [save_market_data, h]
    · simp [save_market_data, h, saveQuotes_idem]
  · intro k
    by_cases h : recs.isEmpty
    · have hnil : recs = [] := by
        cases recs with
        | nil => rfl
        | cons x xs => simp [List.isEmpty] at h
      simp [save_market_data, hnil, lastWith]
    · simp [save_market_data, h, saveQuotes_char]

-- ---------------------------------------------------------------------------
-- Assets table and instrument resolution
-- ---------------------------------------------------------------------------

/-- A row of the assets table (src/database/models.py, class Asset), with
the columns the ingestion pipeline reads or writes. -/
structure Asset where
  id : Nat
  symbol : String
  assetClass : AssetClass
  exchange : String
  name : String
  isActive : Bool
deriving DecidableEq, Repr

/-- Database state touched by the pipeline: the assets table (with the
autoincrement counter that assigns surrogate ids) and the market_quotes
table. -/
structure DB where
  assets : List Asset
  nextId : Nat
  quotes : QuoteStore

/-- SQLAlchemy Query.one_or_none on the rows matched by a filter: none for
no match, the row for exactly one, and MultipleResultsFound otherwise. -/
def one_or_none (l : List Asset) : Except Err (Option Asset) :=
  match l with
  | [] => .ok none
  | [a] => .ok (some a)
  | _ :: _ :: _ => .error .multipleResultsFound

/-- The filter used by the crypto resolver: symbol equality plus the fixed
exchange tag "BINANCE". -/
def binanceKey (symbol : String) (a : Asset) : Bool :=
  decide (a.symbol = symbol ∧ a.exchange = "BINANCE")

/-- The Asset row built by the crypto resolver when the symbol is absent:
asset class CRYPTO, exchange "BINANCE", generated display name, active. -/
def createdCryptoAsset (db : DB) (symbol : String) : Asset :=
  ⟨db.nextId, symbol, .CRYPTO, "BINANCE", "Crypto " ++ symbol, true⟩

/-- get_or_create_asset from scripts/run_crypto_etl.py lines 62-97 (and the
identical copy in the crypto module file): query by (symbol, "BINANCE") with
one_or_none; return the existing row, or insert a new CRYPTO row and commit
it immediately. -/
def get_or_create_asset (db : DB) (symbol : String) :
    Except Err (Asset × DB) :=
  match one_or_none (db.assets.filter (binanceKey symbol)) with
  | .error e => .error e
  | .ok (some a) => .ok (a, db)
  | .ok none =>
      let a := createdCryptoAsset db symbol
      .ok (a, { db with assets := db.assets ++ [a], nextId := db.nextId + 1 })

/-- get_asset from scripts/run_yahoo_etl.py lines 82-102: query by symbol
only (exchange is not part of the lookup key) with one_or_none. -/
def get_asset (db : DB) (symbol : String) : Except Err (Option Asset) :=
  one_or_none (db.assets.filter (fun a => decide (a.symbol = symbol)))

-- ---------------------------------------------------------------------------
-- Per-symbol orchestration (run_etl loops)
-- ---------------------------------------------------------------------------

/-- Reason a symbol is skipped by the yahoo run: the asset is not registered,
or it is registered but marked inactive. -/
inductive SkipReason where
  | notRegistered
  | inactive
deriving DecidableEq, Repr

/-- The terminal outcome logged for one symbol by a run_etl iteration. -/
inductive Outcome where
  | success (count : Nat)
  | noData
  | skipped (reason : SkipReason)
  | failed (e : Err)
deriving DecidableEq, Repr

/-- Whether an outcome is one of the four documented kinds. -/
def Outcome.isKnownKind : Outcome → Bool
  | .success _ => true
  | .noData => true
  | .skipped _ => true
  | .failed _ => true

/-- A fetcher for one run, giving each symbol's fetch_ohlcv result (the
interval and window are fixed for the whole run): either the fetched record
list or the exception the fetcher raised. -/
def Fetch : Type := String → Except Err (List (Int × OHLCV))

/-- The body of one iteration of the crypto run_etl loop (scripts/
run_crypto_etl.py and the crypto module file, lines 194-223), without the
enclosing try/except: resolve (committing a created asset immediately),
fetch, then persist; an escaping exception carries the session state at the
raise point, since committed work is not rolled back. -/
def processCryptoSymbolBody (fetch : Fetch) (db : DB) (symbol : String) :
    Except (DB × Err) (DB × Outcome) :=
  match get_or_create_asset db symbol with
  | .error e => .error (db, e)
  | .ok (a, db1) =>
      match fetch symbol with
      | .error e => .error (db1, e)
      | .ok recs =>
          if recs.isEmpty then .ok (db1, .noData)
          else
            let r := save_market_data db1.quotes a.id recs
            .ok ({ db1 with quotes := r.1 }, .success r.2)

/-- One iteration of the crypto run_etl loop with its per-symbol try/except:
any error is caught at the symbol boundary and recorded as a failed
outcome. -/
def processCryptoSymbol (fetch : Fetch) (db : DB) (symbol : String) :
    DB × Outcome :=
  match processCryptoSymbolBody fetch db symbol with
  | .ok r => r
  | .error (db', e) => (db', .failed e)

/-- run_etl from scripts/run_crypto_etl.py / the crypto module file: the
loop over symbols, threading the session state and collecting the logged
per-symbol outcomes. -/
def runCryptoEtl (fetch : Fetch) (db : DB) (symbols : List String) :
    DB × List Outcome :=
  symbols.foldl
    (fun acc symbol =>
      let r := processCryptoSymbol fetch acc.1 symbol
      (r.1, acc.2 ++ [r.2]))
    (db, [])

/-- The body of one iteration of the yahoo run_etl loop (scripts/
run_yahoo_etl.py lines 180-219), without the enclosing try/except: look up
the asset by symbol, skip when absent or inactive, else fetch and persist. -/
def processYahooSymbolBody (fetch : Fetch) (db : DB) (symbol : String) :
    Except (DB × Err) (DB × Outcome) :=
  match get_asset db symbol with
  | .error e => .error (db, e)
  | .ok none => .ok (db, .skipped .notRegistered)
  | .ok (some a) =>
      if a.isActive then
        match fetch symbol with
        | .error e => .error (db, e)
        | .ok recs =>
            if recs.isEmpty then .ok (db, .noData)
            else
              let r := save_market_data db.quotes a.id recs
              .ok ({ db with quotes := r.1 }, .success r.2)
      else .ok (db, .skipped .inactive)

/-- One iteration of the yahoo run_etl loop with its per-symbol
try/except. -/
def processYahooSymbol (fetch : Fetch) (db : DB) (symbol : String) :
    DB × Outcome :=
  match processYahooSymbolBody fetch db symbol with
  | .ok r => r
  | .error (db', e) => (db', .failed e)

/-- run_etl from scripts/run_yahoo_etl.py: the loop over symbols. -/
def runYahooEtl (fetch : Fetch) (db : DB) (symbols : List String) :
    DB × List Outcome :=
  symbols.foldl
    (fun acc symbol =>
      let r := processYahooSymbol fetch acc.1 symbol
      (r.1, acc.2 ++ [r.2]))
    (db, [])

-- ---------------------------------------------------------------------------
-- Resolution helper lemmas
-- ---------------------------------------------------------------------------

theorem get_or_create_found (db : DB) (S : String) (a : Asset)
    (h : db.assets.filter (binanceKey S) = [a]) :
    get_or_create_asset db S = .ok (a, db) := by
  simp [get_or_create_asset, h, one_or_none]

theorem get_or_create_absent (db : DB) (S : String)
    (h : db.assets.filter (binanceKey S) = []) :
    get_or_create_asset db S =
      .ok (createdCryptoAsset db S,
        { db with assets := db.assets ++ [createdCryptoAsset db S],
                  nextId := db.nextId + 1 }) := by
  simp [get_or_create_asset, h, one_or_none]

/-- C5. Crypto resolution auto-creates: under the (symbol, exchange)
uniqueness invariant of the assets table, get_or_create_asset never fails;
when a (symbol, "BINANCE") row exists it is returned with the store
untouched, and when none exists a new row with asset class CRYPTO,
active=true and the generated display name is inserted and returned. -/
theorem crypto_resolution_auto_creates (db : DB) (S : String)
    (hU : (db.assets.filter (binanceKey S)).length ≤ 1) :
    (∃ r, get_or_create_asset db S = .ok r) ∧
    (∀ a, db.assets.filter (binanceKey S) = [a] →
        get_or_create_asset db S = .ok (a, db)) ∧
    (db.assets.filter (binanceKey S) = [] →
        get_or_create_asset db S =
          .ok (createdCryptoAsset db S,
            { db with assets := db.assets ++ [createdCryptoAsset db S],
                      nextId := db.nextId + 1 }) ∧
        (createdCryptoAsset db S).assetClass = .CRYPTO ∧
        (createdCryptoAsset db S).isActive = true ∧
        (createdCryptoAsset db S).name = "Crypto " ++ S) := by
  refine ⟨?_, ?_, ?_⟩
  · cases hf : db.assets.filter (binanceKey S) with
    | nil => exact ⟨_, get_or_create_absent db S hf⟩
    | cons a tl =>
        cases tl with
        | nil => exact ⟨_, get_or_create_found db S a hf⟩
        | cons b tl' =>
            rw [hf] at hU
            simp at hU
  · intro a h
    exact get_or_create_found db S a h
  · intro h
    exact ⟨get_or_create_absent db S h, rfl, rfl, rfl⟩

/-- C5 witness: on an empty assets table, resolving "BTC/USDT" succeeds and
creates the CRYPTO row. -/
theorem crypto_resolution_auto_creates_witness :
    (∃ r, get_or_create_asset ⟨[], 1, fun _ => none⟩ "BTC/USDT" = .ok r) ∧
    (get_or_create_asset ⟨[], 1, fun _ => none⟩ "BTC/USDT" =
      .ok (createdCryptoAsset ⟨[], 1, fun _ => none⟩ "BTC/USDT",
        { (⟨[], 1, fun _ => none⟩ : DB) with
            assets := ([] : List Asset) ++
              [createdCryptoAsset ⟨[], 1, fun _ => none⟩ "BTC/USDT"],
            nextId := 1 + 1 }) ∧
      (createdCryptoAsset ⟨[], 1, fun _ => none⟩ "BTC/USDT").assetClass =
        .CRYPTO ∧
      (createdCryptoAsset ⟨[], 1, fun _ => none⟩ "BTC/USDT").isActive =
        true ∧
      (createdCryptoAsset ⟨[], 1, fun _ => none⟩ "BTC/USDT").name =
        "Crypto " ++ "BTC/USDT") := by
  have h := crypto_resolution_auto_creates ⟨[], 1, fun _ => none⟩ "BTC/USDT"
    (by simp)
  exact ⟨h.1, h.2.2 (by simp)⟩

/-- C6. Equities resolution rejects without creating: the yahoo loop looks
up by symbol only; an absent symbol yields the not-registered skip outcome
and an inactive asset yields the inactive skip outcome, in both cases with
the database state unchanged (no row inserted or modified). -/
theorem equities_resolution_rejects (fetch : Fetch) (db : DB) (S : String) :
    (db.assets.filter (fun a => decide (a.symbol = S)) = [] →
        processYahooSymbol fetch db S = (db, .skipped .notRegistered)) ∧
    (∀ a, db.assets.filter (fun a => decide (a.symbol = S)) = [a] →
        a.isActive = false →
        processYahooSymbol fetch db S = (db, .skipped .inactive)) := by
  constructor
  · intro h
    simp [processYahooSymbol, processYahooSymbolBody, get_asset, h,
      one_or_none]
  · intro a h hinact
    simp [processYahooSymbol, processYahooSymbolBody, get_asset, h,
      one_or_none, hinact]

/-- C6 witness: an unregistered symbol is skipped as not registered on an
empty table, and a registered-but-inactive symbol is skipped as inactive;
neither changes the database. -/
theorem equities_resolution_rejects_witness :
    (processYahooSymbol (fun s => .error (.providerFetchFailed s))
        ⟨[], 1, fun _ => none⟩ "AAPL" =
      (⟨[], 1, fun _ => none⟩, .skipped .notRegistered)) ∧
    (processYahooSymbol (fun s => .error (.providerFetchFailed s))
        ⟨[⟨7, "TSLA", .STOCK, "NASDAQ", "Tesla", false⟩], 8, fun _ => none⟩
        "TSLA" =
      (⟨[⟨7, "TSLA", .STOCK, "NASDAQ", "Tesla", false⟩], 8, fun _ => none⟩,
        .skipped .inactive)) := by
  constructor
  · exact (equities_resolution_rejects (fun s => .error (.providerFetchFailed s))
      ⟨[], 1, fun _ => none⟩ "AAPL").1 (by simp)
  · exact (equities_resolution_rejects (fun s => .error (.providerFetchFailed s))
      ⟨[⟨7, "TSLA", .STOCK, "NASDAQ", "Tesla", false⟩], 8, fun _ => none⟩
      "TSLA").2 ⟨7, "TSLA", .STOCK, "NASDAQ", "Tesla", false⟩ (by simp) rfl

/-- C9 counterexample: the AssetClass enumeration translated from
src/database/models.py has exactly four members — CRYPTO, STOCK, FOREX and
COMMODITY — and no member with value "INDEX", refuting the claimed
five-value enumeration. -/
theorem asset_class_enum_counterexample :
    allAssetClasses.map AssetClass.value =
        ["CRYPTO", "STOCK", "FOREX", "COMMODITY"] ∧
      ¬ ("INDEX" ∈ allAssetClasses.map AssetClass.value) ∧
      allAssetClasses.length = 4 := by
  refine ⟨rfl, ?_, rfl⟩
  decide

/-- C9 amended: the asset-class attribute is an enumeration with exactly the
four values CRYPTO, STOCK, FOREX and COMMODITY, and every instrument created
by the pipeline's resolver carries one of those values. -/
theorem asset_class_enum_four_values :
    (∀ c : AssetClass, c ∈ allAssetClasses) ∧
      allAssetClasses.Nodup ∧
      allAssetClasses.length = 4 ∧
      (∀ (db : DB) (S : String) (a : Asset) (db' : DB),
        get_or_create_asset db S = .ok (a, db') →
          a.assetClass ∈ allAssetClasses) := by
  refine ⟨assetClass_mem_all, by decide, rfl, ?_⟩
  intro db S a db' _
  exact assetClass_mem_all a.assetClass

/-- C9 witness: membership and size of the enumeration at concrete
values. -/
theorem asset_class_enum_four_values_witness :
    AssetClass.CRYPTO ∈ allAssetClasses ∧ allAssetClasses.length = 4 :=
  ⟨asset_class_enum_four_values.1 .CRYPTO,
    asset_class_enum_four_values.2.2.1⟩

/-- C10. Crypto auto-creation is committed at resolution time: when the
symbol is absent and the subsequent fetch raises, the caught failure leaves
the newly created asset row in the assets table while the quotes are
untouched — the failed symbol is not atomic across the resolve step. -/
theorem crypto_creation_not_rolled_back (fetch : Fetch) (db : DB)
    (S : String) (e : Err)
    (habs : db.assets.filter (binanceKey S) = [])
    (hf : fetch S = .error e) :
    processCryptoSymbol fetch db S =
      ({ db with assets := db.assets ++ [createdCryptoAsset db S],
                 nextId := db.nextId + 1 }, .failed e) := by
  simp [processCryptoSymbol, processCryptoSymbolBody,
    get_or_create_absent db S habs, hf]

/-- C10 witness: a failed fetch for an unregistered symbol still leaves the
created asset behind. -/
theorem crypto_creation_not_rolled_back_witness :
    processCryptoSymbol (fun s => .error (.providerFetchFailed s))
        ⟨[], 1, fun _ => none⟩ "ETH/USDT" =
      ({ (⟨[], 1, fun _ => none⟩ : DB) with
          assets := ([] : List Asset) ++
            [createdCryptoAsset ⟨[], 1, fun _ => none⟩ "ETH/USDT"],
          nextId := 1 + 1 },
        .failed (.providerFetchFailed "ETH/USDT")) :=
  crypto_creation_not_rolled_back (fun s => .error (.providerFetchFailed s))
    ⟨[], 1, fun _ => none⟩ "ETH/USDT" (.providerFetchFailed "ETH/USDT")
    (by simp) rfl

-- ---------------------------------------------------------------------------
-- Outcome report shape (C7)
-- ---------------------------------------------------------------------------

theorem outcome_isKnownKind (o : Outcome) : o.isKnownKind = true := by
  cases o <;> rfl

theorem runLoop_length (step : DB → String → DB × Outcome) :
    ∀ (symbols : List String) (db : DB) (acc : List Outcome),
      (symbols.foldl
        (fun acc symbol =>
          let r := step acc.1 symbol
          (r.1, acc.2 ++ [r.2]))
        (db, acc)).2.length = acc.length + symbols.length := by
  intro symbols
  induction symbols with
  | nil => intro db acc; simp
  | cons s ss ih =>
      intro db acc
      simp only [List.foldl_cons]
      rw [ih]
      simp
      omega

/-- C7. Outcome report: each run_etl loop is a total function of its inputs
(the fallible resolve/fetch/persist steps are caught at the per-symbol
try/except, so none of the error kinds escapes the run), and it produces
exactly one outcome per input symbol, every outcome being one of the four
documented kinds. -/
theorem run_outcome_report (fetchC fetchY : Fetch) (dbC dbY : DB)
    (symsC symsY : List String) :
    ((runCryptoEtl fetchC dbC symsC).2.length = symsC.length ∧
      (runCryptoEtl fetchC dbC symsC).2.all Outcome.isKnownKind = true ∧
      (∀ (db : DB) (s : String),
        processCryptoSymbol fetchC db s =
          match processCryptoSymbolBody fetchC db s with
          | .ok r => r
          | .error (db', e) => (db', .failed e))) ∧
    ((runYahooEtl fetchY dbY symsY).2.length = symsY.length ∧
      (runYahooEtl fetchY dbY symsY).2.all Outcome.isKnownKind = true ∧
      (∀ (db : DB) (s : String),
        processYahooSymbol fetchY db s =
          match processYahooSymbolBody fetchY db s with
          | .ok r => r
          | .error (db', e) => (db', .failed e))) := by
  refine ⟨⟨?_, ?_, fun db s => rfl⟩, ⟨?_, ?_, fun db s => rfl⟩⟩
  · have h := runLoop_length (processCryptoSymbol fetchC) symsC dbC []
    simpa [runCryptoEtl] using h
  · rw [List.all_eq_true]
    intro o _
    exact outcome_isKnownKind o
  · have h := runLoop_length (processYahooSymbol fetchY) symsY dbY []
    simpa [runYahooEtl] using h
  · rw [List.all_eq_true]
    intro o _
    exact outcome_isKnownKind o

/-- C7 witness: concrete three-symbol runs of both loops yield exactly three
outcomes of the documented kinds. -/
theorem run_outcome_report_witness :
    (runCryptoEtl (fun s => .error (.providerFetchFailed s))
        ⟨[], 1, fun _ => none⟩ ["X", "Y", "Z"]).2.length = 3 ∧
    (runYahooEtl (fun s => .error (.providerFetchFailed s))
        ⟨[], 1, fun _ => none⟩ ["X", "Y", "Z"]).2.length = 3 := by
  have h := run_outcome_report (fun s => .error (.providerFetchFailed s))
    (fun s => .error (.providerFetchFailed s))
    ⟨[], 1, fun _ => none⟩ ⟨[], 1, fun _ => none⟩
    ["X", "Y", "Z"] ["X", "Y", "Z"]
  exact ⟨h.1.1, h.2.1⟩

-- ---------------------------------------------------------------------------
-- Partial-failure isolation (C3)
-- ---------------------------------------------------------------------------

/-- C3. Partial-failure isolation in the crypto run: with symbols
[A, B, C] where A and C are registered and fetch successfully while B is
unregistered and its fetch raises, the caught failure of B yields the
outcome row [success, failed, success], and the persisted quote data is
exactly that of a run over [A, C] alone — B's failure neither aborts the
batch nor affects A's or C's persisted rows. -/
theorem partial_failure_isolation (fetch : Fetch) (db : DB)
    (A B C : String) (aA aC : Asset) (ra rc : List (Int × OHLCV)) (e : Err)
    (hBC : B ≠ C)
    (haA : db.assets.filter (binanceKey A) = [aA])
    (haB : db.assets.filter (binanceKey B) = [])
    (haC : db.assets.filter (binanceKey C) = [aC])
    (hfA : fetch A = .ok ra) (hra : ra.isEmpty = false)
    (hfB : fetch B = .error e)
    (hfC : fetch C = .ok rc) (hrc : rc.isEmpty = false) :
    (runCryptoEtl fetch db [A, B, C]).2 =
        [.success ra.length, .failed e, .success rc.length] ∧
      (runCryptoEtl fetch db [A, B, C]).1.quotes =
        (runCryptoEtl fetch db [A, C]).1.quotes := by
  have hA : processCryptoSymbol fetch db A =
      (⟨db.assets, db.nextId, saveQuotes db.quotes aA.id ra⟩,
        .success ra.length) := by
    simp [processCryptoSymbol, processCryptoSymbolBody,
      get_or_create_found db A aA haA, hfA, hra, save_market_data]
  have hB : processCryptoSymbol fetch
      ⟨db.assets, db.nextId, saveQuotes db.quotes aA.id ra⟩ B =
      (⟨db.assets ++ [⟨db.nextId, B, .CRYPTO, "BINANCE", "Crypto " ++ B,
          true⟩], db.nextId + 1, saveQuotes db.quotes aA.id ra⟩,
        .failed e) := by
    simp [processCryptoSymbol, processCryptoSymbolBody, get_or_create_asset,
      haB, one_or_none, hfB, createdCryptoAsset]
  have hfiltC : (db.assets ++ [(⟨db.nextId, B, .CRYPTO, "BINANCE",
      "Crypto " ++ B, true⟩ : Asset)]).filter (binanceKey C) = [aC] := by
    rw [List.filter_append, haC]
    simp [binanceKey, hBC]
  have hC : processCryptoSymbol fetch
      ⟨db.assets ++ [⟨db.nextId, B, .CRYPTO, "BINANCE", "Crypto " ++ B,
          true⟩], db.nextId + 1, saveQuotes db.quotes aA.id ra⟩ C =
      (⟨db.assets ++ [⟨db.nextId, B, .CRYPTO, "BINANCE", "Crypto " ++ B,
          true⟩], db.nextId + 1,
          saveQuotes (saveQuotes db.quotes aA.id ra) aC.id rc⟩,
        .success rc.length) := by
    simp [processCryptoSymbol, processCryptoSymbolBody, get_or_create_asset,
      hfiltC, one_or_none, hfC, hrc, save_market_data]
  have hCshort : processCryptoSymbol fetch
      ⟨db.assets, db.nextId, saveQuotes db.quotes aA.id ra⟩ C =
      (⟨db.assets, db.nextId,
          saveQuotes (saveQuotes db.quotes aA.id ra) aC.id rc⟩,
        .success rc.length) := by
    simp [processCryptoSymbol, processCryptoSymbolBody, get_or_create_asset,
      haC, one_or_none, hfC, hrc, save_market_data]
  constructor
  · simp [runCryptoEtl, hA, hB, hC]
  · simp [runCryptoEtl, hA, hB, hC, hCshort]

/-- C3 witness: concrete run over ["AAA", "BBB", "CCC"] where only the
fetch of "BBB" raises — "AAA" and "CCC" succeed and persist identically to
a run without "BBB". -/
theorem partial_failure_isolation_witness :
    (runCryptoEtl
        (fun s => if s = "BBB" then .error (.providerFetchFailed "BBB")
          else .ok [((0 : Int), ⟨1, 2, 3, 4, 5⟩)])
        ⟨[⟨1, "AAA", .CRYPTO, "BINANCE", "Crypto AAA", true⟩,
          ⟨2, "CCC", .CRYPTO, "BINANCE", "Crypto CCC", true⟩],
          3, fun _ => none⟩
        ["AAA", "BBB", "CCC"]).2 =
      [.success 1, .failed (.providerFetchFailed "BBB"), .success 1] ∧
    (runCryptoEtl
        (fun s => if s = "BBB" then .error (.providerFetchFailed "BBB")
          else .ok [((0 : Int), ⟨1, 2, 3, 4, 5⟩)])
        ⟨[⟨1, "AAA", .CRYPTO, "BINANCE", "Crypto AAA", true⟩,
          ⟨2, "CCC", .CRYPTO, "BINANCE", "Crypto CCC", true⟩],
          3, fun _ => none⟩
        ["AAA", "BBB", "CCC"]).1.quotes =
      (runCryptoEtl
        (fun s => if s = "BBB" then .error (.providerFetchFailed "BBB")
          else .ok [((0 : Int), ⟨1, 2, 3, 4, 5⟩)])
        ⟨[⟨1, "AAA", .CRYPTO, "BINANCE", "Crypto AAA", true⟩,
          ⟨2, "CCC", .CRYPTO, "BINANCE", "Crypto CCC", true⟩],
          3, fun _ => none⟩
        ["AAA", "CCC"]).1.quotes :=
  partial_failure_isolation
    (fun s => if s = "BBB" then .error (.providerFetchFailed "BBB")
      else .ok [((0 : Int), ⟨1, 2, 3, 4, 5⟩)])
    ⟨[⟨1, "AAA", .CRYPTO, "BINANCE", "Crypto AAA", true⟩,
      ⟨2, "CCC", .CRYPTO, "BINANCE", "Crypto CCC", true⟩],
      3, fun _ => none⟩
    "AAA" "BBB" "CCC"
    ⟨1, "AAA", .CRYPTO, "BINANCE", "Crypto AAA", true⟩
    ⟨2, "CCC", .CRYPTO, "BINANCE", "Crypto CCC", true⟩
    [((0 : Int), ⟨1, 2, 3, 4, 5⟩)] [((0 : Int), ⟨1, 2, 3, 4, 5⟩)]
    (.providerFetchFailed "BBB")
    (by decide) (by decide) (by decide) (by decide)
    rfl rfl rfl rfl rfl

-- ---------------------------------------------------------------------------
-- DataFrame normalization (yahoo and stocks yfinance fetchers, base.py)
-- ---------------------------------------------------------------------------

/-- One row of a provider OHLCV frame; `time` is the UTC instant the row
denotes (tz-awareness is a frame-level dtype, tracked on the frame). -/
structure YRow where
  time : Int
  openV : Int
  highV : Int
  lowV : Int
  closeV : Int
  volumeV : Int
deriving DecidableEq, Repr

/-- A pandas DataFrame as the fetchers see it: column labels, whether the
time column dtype carries a timezone, and the rows (a column's values are
meaningful only when its label is present in `cols`). -/
structure RawFrame where
  cols : List String
  timeAware : Bool
  rows : List YRow
deriving DecidableEq, Repr

/-- The rename map applied to provider column labels (step 2 of both
yfinance fetchers). -/
def renameCol (s : String) : String :=
  if s = "Date" then "time"
  else if s = "Datetime" then "time"
  else if s = "Open" then "open"
  else if s = "High" then "high"
  else if s = "Low" then "low"
  else if s = "Close" then "close"
  else if s = "Volume" then "volume"
  else s

/-- df.rename(columns=...): relabel the columns, values untouched. -/
def renameFrame (f : RawFrame) : RawFrame :=
  { f with cols := f.cols.map renameCol }

/-- Step 3 of both fetchers: when a time column is present, a naive dtype is
localized to UTC and an aware dtype is converted to UTC; either way the
stored instants are unchanged and the column ends up timezone-aware. -/
def tzNormalize (f : RawFrame) : RawFrame :=
  if "time" ∈ f.cols then { f with timeAware := true } else f

/-- Step 4a of the yahoo fetcher: df = df[df['time'] >= start_date]; pandas
raises KeyError when the time column is missing. -/
def clipStart (f : RawFrame) (startD : Option Int) : Except Err RawFrame :=
  match startD with
  | none => .ok f
  | some t0 =>
      if "time" ∈ f.cols then
        .ok { f with rows := f.rows.filter (fun r => decide (t0 ≤ r.time)) }
      else .error (.keyError "time")

/-- Step 4b of the yahoo fetcher: df = df[df['time'] <= end_date]. -/
def clipEnd (f : RawFrame) (endD : Option Int) : Except Err RawFrame :=
  match endD with
  | none => .ok f
  | some t1 =>
      if "time" ∈ f.cols then
        .ok { f with rows := f.rows.filter (fun r => decide (r.time ≤ t1)) }
      else .error (.keyError "time")

/-- Volume backfill of both fetchers: when the volume column is absent it is
added with value 0.0 for every row. -/
def fillVolume (f : RawFrame) : RawFrame :=
  if "volume" ∈ f.cols then f
  else
    { cols := f.cols ++ ["volume"], timeAware := f.timeAware,
      rows := f.rows.map (fun r => { r with volumeV := 0 }) }

/-- The required-field set of validate_dataframe (src/data_ingestion/base.py
line 107), in canonical order. -/
def requiredCols : List String :=
  ["time", "open", "high", "low", "close", "volume"]

/-- The yahoo fetcher's defensive projection df[available_cols]: keep only
the canonical columns that exist. -/
def selectAvailable (f : RawFrame) : RawFrame :=
  { f with cols := requiredCols.filter (fun c => decide (c ∈ f.cols)) }

/-- The stocks fetcher's strict projection df[['time', ..., 'volume']];
pandas raises KeyError when any of the six is missing. -/
def selectStrict (f : RawFrame) : Except Err RawFrame :=
  if requiredCols.all (fun c => decide (c ∈ f.cols)) then
    .ok { f with cols := requiredCols }
  else .error (.keyError "columns")

/-- validate_dataframe from src/data_ingestion/base.py lines 91-117: raise
ValueError naming the missing required columns when any is absent, return
True otherwise (also for an empty frame). -/
def validate_dataframe (f : RawFrame) : Except Err Bool :=
  if (requiredCols.filter (fun c => decide (¬ c ∈ f.cols))).isEmpty then
    .ok true
  else
    .error (.validationFailed
      (requiredCols.filter (fun c => decide (¬ c ∈ f.cols))))

/-- fetch_ohlcv of src/data_ingestion/yahoo/yfinance_fetcher.py lines
35-127, from the downloaded frame onward: empty response short-circuits to
an empty frame; otherwise rename, tz-normalize, strictly clip to
[start, end], backfill volume, project to the available canonical columns
and validate before returning. -/
def yahooFetchOhlcv (df : RawFrame) (startD endD : Option Int) :
    Except Err RawFrame :=
  if df.rows.isEmpty then .ok ⟨[], false, []⟩
  else
    match clipStart (tzNormalize (renameFrame df)) startD with
    | .error e => .error e
    | .ok f3a =>
        match clipEnd f3a endD with
        | .error e => .error e
        | .ok f3 =>
            match validate_dataframe (selectAvailable (fillVolume f3)) with
            | .error e => .error e
            | .ok _ => .ok (selectAvailable (fillVolume f3))

/-- fetch_ohlcv of src/data_ingestion/stocks/yfinance_fetcher.py lines
35-117, from the downloaded frame onward: empty response short-circuits;
otherwise rename, tz-normalize, backfill volume, project strictly to the
six canonical columns and validate — there is no post-fetch window filter
in this variant (start and end are only forwarded to the provider at daily
granularity). -/
def stocksFetchOhlcv (df : RawFrame) (startD endD : Option Int) :
    Except Err RawFrame :=
  if df.rows.isEmpty then .ok ⟨[], false, []⟩
  else
    match selectStrict (fillVolume (tzNormalize (renameFrame df))) with
    | .error e => .error e
    | .ok f5 =>
        match validate_dataframe f5 with
        | .error e => .error e
        | .ok _ => .ok f5

theorem selectAvailable_rows (f : RawFrame) :
    (selectAvailable f).rows = f.rows := rfl

theorem fillVolume_time_mem (f : RawFrame) (r : YRow)
    (h : r ∈ (fillVolume f).rows) : ∃ r' ∈ f.rows, r.time = r'.time := by
  unfold fillVolume at h
  split at h
  · exact ⟨r, h, rfl⟩
  · simp only [List.mem_map] at h
    obtain ⟨r', hr', hmap⟩ := h
    exact ⟨r', hr', by rw [← hmap]⟩

theorem clipStart_some_rows (f g : RawFrame) (t0 : Int)
    (h : clipStart f (some t0) = .ok g) :
    g.rows = f.rows.filter (fun r => decide (t0 ≤ r.time)) := by
  simp only [clipStart] at h
  split at h
  · cases h; rfl
  · exact Except.noConfusion h

theorem clipEnd_some_rows (f g : RawFrame) (t1 : Int)
    (h : clipEnd f (some t1) = .ok g) :
    g.rows = f.rows.filter (fun r => decide (r.time ≤ t1)) := by
  simp only [clipEnd] at h
  split at h
  · cases h; rfl
  · exact Except.noConfusion h

/-- C4 (amended). Window clipping in the yahoo variant: whenever both start
and end are given, every row of a successfully returned frame has
start ≤ time ≤ end, whatever the provider returned. -/
theorem yahoo_window_clipping (df : RawFrame) (t0 t1 : Int) (f : RawFrame)
    (h : yahooFetchOhlcv df (some t0) (some t1) = .ok f) :
    ∀ r ∈ f.rows, t0 ≤ r.time ∧ r.time ≤ t1 := by
  intro r hr
  unfold yahooFetchOhlcv at h
  by_cases hemp : df.rows.isEmpty
  · rw [if_pos hemp] at h
    cases h
    simp at hr
  · rw [if_neg hemp] at h
    cases hc1 : clipStart (tzNormalize (renameFrame df)) (some t0) with
    | error e =>
        simp only [hc1] at h
        exact Except.noConfusion h
    | ok f3a =>
        simp only [hc1] at h
        cases hc2 : clipEnd f3a (some t1) with
        | error e =>
            simp only [hc2] at h
            exact Except.noConfusion h
        | ok f3 =>
            simp only [hc2] at h
            cases hv : validate_dataframe (selectAvailable (fillVolume f3))
              with
            | error e =>
                simp only [hv] at h
                exact Except.noConfusion h
            | ok b =>
                simp only [hv, Except.ok.injEq] at h
                rw [← h, selectAvailable_rows] at hr
                obtain ⟨r3, hr3, htime⟩ := fillVolume_time_mem f3 r hr
                rw [clipEnd_some_rows f3a f3 t1 hc2, List.mem_filter] at hr3
                obtain ⟨hr3a, hle⟩ := hr3
                rw [clipStart_some_rows (tzNormalize (renameFrame df)) f3a
                  t0 hc1, List.mem_filter] at hr3a
                obtain ⟨_, hge⟩ := hr3a
                rw [htime]
                exact ⟨by simpa using hge, by simpa using hle⟩

/-- C4 witness: a provider frame overshooting the window on both sides is
clipped to it by the yahoo variant. -/
theorem yahoo_window_clipping_witness :
    (match yahooFetchOhlcv
        ⟨["Date", "Open", "High", "Low", "Close", "Volume"], false,
          [⟨-5, 1, 1, 1, 1, 1⟩, ⟨10, 2, 2, 2, 2, 2⟩, ⟨100, 3, 3, 3, 3, 3⟩]⟩
        (some 0) (some 50) with
      | .ok f => f.rows.all (fun r => decide (0 ≤ r.time ∧ r.time ≤ 50))
      | .error _ => false) = true := by
  have h := yahoo_window_clipping
    ⟨["Date", "Open", "High", "Low", "Close", "Volume"], false,
      [⟨-5, 1, 1, 1, 1, 1⟩, ⟨10, 2, 2, 2, 2, 2⟩, ⟨100, 3, 3, 3, 3, 3⟩]⟩
    0 50 ⟨["time", "open", "high", "low", "close", "volume"], true,
      [⟨10, 2, 2, 2, 2, 2⟩]⟩ (by decide)
  decide

/-- C4 counterexample: the stocks variant applies no post-fetch window
filter — with start=0, end=50 it returns a provider row at time 100
unchanged, refuting the claim for that fetch_ohlcv variant. -/
theorem stocks_no_clipping_counterexample :
    (match stocksFetchOhlcv
        ⟨["Date", "Open", "High", "Low", "Close", "Volume"], false,
          [⟨100, 1, 2, 3, 4, 5⟩]⟩
        (some 0) (some 50) with
      | .ok f => f.rows.any (fun r => decide (50 < r.time))
      | .error _ => false) = true := by
  decide

theorem validate_dataframe_ok (f : RawFrame) (b : Bool)
    (h : validate_dataframe f = .ok b) : validate_dataframe f = .ok true := by
  unfold validate_dataframe at h ⊢
  split at h
  · cases h
    simp_all
  · cases h

/-- C8 (amended). Required-field validation: validate_dataframe raises a
ValidationFailed error naming the missing columns whenever any required
field is absent, and both concrete fetch_ohlcv variants run it on the final
frame before returning on every nonempty path, so a successfully returned
frame always passed validation. -/
theorem required_field_validation :
    (∀ f : RawFrame,
        requiredCols.all (fun c => decide (c ∈ f.cols)) = false →
          ∃ missing, validate_dataframe f = .error (.validationFailed missing)
            ∧ missing ≠ []) ∧
    (∀ (df : RawFrame) (s e : Option Int) (f : RawFrame),
        df.rows.isEmpty = false → yahooFetchOhlcv df s e = .ok f →
          validate_dataframe f = .ok true) ∧
    (∀ (df : RawFrame) (s e : Option Int) (f : RawFrame),
        df.rows.isEmpty = false → stocksFetchOhlcv df s e = .ok f →
          validate_dataframe f = .ok true) := by
  refine ⟨?_, ?_, ?_⟩
  · intro f hall
    rw [List.all_eq_false] at hall
    obtain ⟨c, hc, hcp⟩ := hall
    have hmem : c ∈ requiredCols.filter (fun c => decide (¬ c ∈ f.cols)) := by
      rw [List.mem_filter]
      exact ⟨hc, by simpa using hcp⟩
    have hne : requiredCols.filter (fun c => decide (¬ c ∈ f.cols)) ≠ [] :=
      List.ne_nil_of_mem hmem
    refine ⟨requiredCols.filter (fun c => decide (¬ c ∈ f.cols)), ?_, hne⟩
    unfold validate_dataframe
    rw [if_neg]
    simpa using hne
  · intro df s e f hemp h
    unfold yahooFetchOhlcv at h
    rw [hemp] at h
    simp only [Bool.false_eq_true, if_false] at h
    cases hc1 : clipStart (tzNormalize (renameFrame df)) s with
    | error e1 =>
        simp only [hc1] at h
        exact Except.noConfusion h
    | ok f3a =>
        simp only [hc1] at h
        cases hc2 : clipEnd f3a e with
        | error e2 =>
            simp only [hc2] at h
            exact Except.noConfusion h
        | ok f3 =>
            simp only [hc2] at h
            cases hv : validate_dataframe (selectAvailable (fillVolume f3))
              with
            | error e3 =>
                simp only [hv] at h
                exact Except.noConfusion h
            | ok b =>
                simp only [hv, Except.ok.injEq] at h
                rw [← h]
                exact validate_dataframe_ok _ _ hv
  · intro df s e f hemp h
    unfold stocksFetchOhlcv at h
    rw [hemp] at h
    simp only [Bool.false_eq_true, if_false] at h
    cases hsel : selectStrict (fillVolume (tzNormalize (renameFrame df)))
      with
    | error e1 =>
        simp only [hsel] at h
        exact Except.noConfusion h
    | ok f5 =>
        simp only [hsel] at h
        cases hv : validate_dataframe f5 with
        | error e2 =>
            simp only [hv] at h
            exact Except.noConfusion h
        | ok b =>
            simp only [hv, Except.ok.injEq] at h
            rw [← h]
            exact validate_dataframe_ok _ _ hv

/-- C8 witness: a frame missing the close column fails validation with the
missing-column list, and a successful yahoo fetch returns a validated
frame. -/
theorem required_field_validation_witness :
    (∃ missing,
        validate_dataframe ⟨["time", "open", "high", "low", "volume"],
          true, []⟩ = .error (.validationFailed missing) ∧ missing ≠ []) ∧
    validate_dataframe ⟨["time", "open", "high", "low", "close", "volume"],
      true, [⟨10, 2, 2, 2, 2, 2⟩]⟩ = .ok true := by
  constructor
  · exact required_field_validation.1
      ⟨["time", "open", "high", "low", "volume"], true, []⟩ (by decide)
  · exact required_field_validation.2.1
      ⟨["Date", "Open", "High", "Low", "Close", "Volume"], false,
        [⟨10, 2, 2, 2, 2, 2⟩]⟩ (some 0) (some 50)
      ⟨["time", "open", "high", "low", "close", "volume"], true,
        [⟨10, 2, 2, 2, 2, 2⟩]⟩ (by decide) (by decide)

/-- C8 counterexample: an empty provider response short-circuits both
variants — the yahoo variant returns an empty frame with no columns at all,
skipping validation, so a returned sequence can lack every required field
without any ValidationFailed being raised. -/
theorem empty_frame_skips_validation_counterexample :
    (match yahooFetchOhlcv ⟨["Date"], false, []⟩ (some 0) (some 1) with
      | .ok f => decide (¬ "time" ∈ f.cols) &&
          decide (¬ "close" ∈ f.cols)
      | .error _ => false) = true := by
  decide

-- ---------------------------------------------------------------------------
-- Crypto pagination (BinanceFetcher.fetch_ohlcv)
-- ---------------------------------------------------------------------------

/-- One OHLCV candle from the crypto provider; `ts` is the epoch-millisecond
timestamp returned by the exchange. -/
structure Candle where
  ts : Nat
  openV : Int
  highV : Int
  lowV : Int
  closeV : Int
  volumeV : Int
deriving DecidableEq, Repr

/-- Modelled from the spec: the deduplicate-by-timestamp pass applied after
pagination (spec section 4.1, crypto variant; the BinanceFetcher class is
imported by the ETL script but its module is not present under src).
Keeps the first candle seen for each timestamp. -/
def dedupByTs (seen : List Nat) : List Candle → List Candle
  | [] => []
  | c :: cs =>
      if c.ts ∈ seen then dedupByTs seen cs
      else c :: dedupByTs (c.ts :: seen) cs

/-- Timestamp order on candles, used for the final ascending sort. -/
def tsLE (a b : Candle) : Prop := a.ts ≤ b.ts

instance : DecidableRel tsLE :=
  fun a b => inferInstanceAs (Decidable (a.ts ≤ b.ts))

instance : IsTotal Candle tsLE := ⟨fun a b => Nat.le_total a.ts b.ts⟩

instance : IsTrans Candle tsLE := ⟨fun _ _ _ hab hbc => Nat.le_trans hab hbc⟩

/-- Modelled from the spec: the post-accumulation pass of the crypto
fetch_ohlcv — clip records whose timestamp exceeds the requested end, then
deduplicate by timestamp, then sort ascending by timestamp. -/
def postprocess (endT : Nat) (l : List Candle) : List Candle :=
  List.insertionSort tsLE
    (dedupByTs [] (l.filter (fun c => decide (c.ts ≤ endT))))

/-- Modelled from the spec: the pagination loop of the crypto fetch_ohlcv
(spec section 4.1, steps 1-7): call the provider at the cursor; stop on an
empty page, on last timestamp ≥ end, or on a short page (< K); otherwise
advance the cursor to the last timestamp + 1 unit and repeat. The fuel
argument bounds the iterations so the loop is a total function; running out
of fuel yields none, and termination is the theorem that enough fuel always
exists. Returns the list of fetched pages. -/
def paginate (provider : Nat → List Candle) (K endT : Nat) :
    Nat → Nat → Option (List (List Candle))
  | 0, _ => none
  | fuel + 1, cursor =>
      if hp : provider cursor = [] then some []
      else
        if endT ≤ ((provider cursor).getLast hp).ts then
          some [provider cursor]
        else if (provider cursor).length < K then some [provider cursor]
        else
          match paginate provider K endT fuel
              (((provider cursor).getLast hp).ts + 1) with
          | none => none
          | some ps => some (provider cursor :: ps)

/-- Modelled from the spec: BinanceFetcher.fetch_ohlcv over [start, end] —
paginate from the start cursor and post-process the concatenation of the
pages; the fuel end - start + 2 is an upper bound on the iterations a
progressive provider can need. -/
def fetch_ohlcv_crypto (provider : Nat → List Candle)
    (K startT endT : Nat) : Option (List Candle) :=
  (paginate provider K endT (endT - startT + 2) startT).map
    (fun ps => postprocess endT ps.flatten)

theorem dedupByTs_mem (l : List Candle) :
    ∀ (seen : List Nat) (x : Candle), x ∈ dedupByTs seen l → x ∈ l := by
  induction l with
  | nil =>
      intro seen x hx
      simp [dedupByTs] at hx
  | cons c cs ih =>
      intro seen x hx
      simp only [dedupByTs] at hx
      split at hx
      · exact List.mem_cons_of_mem c (ih seen x hx)
      · rcases List.mem_cons.mp hx with h | h
        · rw [h]; exact List.mem_cons_self c cs
        · exact List.mem_cons_of_mem c (ih _ x h)

theorem dedupByTs_spec (l : List Candle) :
    ∀ seen : List Nat,
      (∀ x ∈ dedupByTs seen l, ¬ x.ts ∈ seen) ∧
        ((dedupByTs seen l).map Candle.ts).Nodup := by
  induction l with
  | nil =>
      intro seen
      simp [dedupByTs]
  | cons c cs ih =>
      intro seen
      by_cases h : c.ts ∈ seen
      · simp only [dedupByTs, if_pos h]
        exact ih seen
      · simp only [dedupByTs, if_neg h]
        refine ⟨?_, ?_⟩
        · intro x hx
          rcases List.mem_cons.mp hx with hx1 | hx2
          · rw [hx1]; exact h
          · have hx3 := (ih (c.ts :: seen)).1 x hx2
            intro hc
            exact hx3 (List.mem_cons_of_mem _ hc)
        · rw [List.map_cons, List.nodup_cons]
          refine ⟨?_, (ih (c.ts :: seen)).2⟩
          intro hmem
          rw [List.mem_map] at hmem
          obtain ⟨x, hx, hxts⟩ := hmem
          apply (ih (c.ts :: seen)).1 x hx
          rw [hxts]
          exact List.mem_cons_self _ _

theorem postprocess_sorted (endT : Nat) (l : List Candle) :
    List.Sorted tsLE (postprocess endT l) :=
  List.sorted_insertionSort tsLE _

theorem postprocess_nodup (endT : Nat) (l : List Candle) :
    ((postprocess endT l).map Candle.ts).Nodup := by
  have hperm := List.perm_insertionSort tsLE
    (dedupByTs [] (l.filter (fun c => decide (c.ts ≤ endT))))
  exact ((hperm.map Candle.ts).nodup_iff).mpr
    ((dedupByTs_spec _ []).2)

theorem postprocess_le (endT : Nat) (l : List Candle) :
    ∀ r ∈ postprocess endT l, r.ts ≤ endT := by
  intro r hr
  have hperm := List.perm_insertionSort tsLE
    (dedupByTs [] (l.filter (fun c => decide (c.ts ≤ endT))))
  have hr2 := hperm.mem_iff.mp hr
  have hr3 := dedupByTs_mem _ [] r hr2
  rw [List.mem_filter] at hr3
  simpa using hr3.2

theorem paginate_terminates (provider : Nat → List Candle) (K endT : Nat)
    (hprog : ∀ c, ∀ r ∈ provider c, c ≤ r.ts) :
    ∀ fuel cursor : Nat, endT + 1 - cursor < fuel →
      ∃ ps, paginate provider K endT fuel cursor = some ps := by
  intro fuel
  induction fuel with
  | zero =>
      intro cursor h
      omega
  | succ fuel ih =>
      intro cursor h
      by_cases hp : provider cursor = []
      · exact ⟨[], by simp [paginate, hp]⟩
      · by_cases he : endT ≤ ((provider cursor).getLast hp).ts
        · refine ⟨[provider cursor], ?_⟩
          simp only [paginate]
          rw [dif_neg hp, if_pos he]
        · by_cases hk : (provider cursor).length < K
          · refine ⟨[provider cursor], ?_⟩
            simp only [paginate]
            rw [dif_neg hp, if_neg he, if_pos hk]
          · have hcle : cursor ≤ ((provider cursor).getLast hp).ts :=
              hprog cursor _ (List.getLast_mem hp)
            have hfuel : endT + 1 - (((provider cursor).getLast hp).ts + 1)
                < fuel := by omega
            obtain ⟨ps, hps⟩ := ih (((provider cursor).getLast hp).ts + 1)
              hfuel
            refine ⟨provider cursor :: ps, ?_⟩
            simp only [paginate]
            rw [dif_neg hp, if_neg he, if_neg hk, hps]

/-- C2. Crypto pagination terminates and is complete: for a provider whose
pages hold at most K candles and respect the since-cursor (every returned
candle's timestamp is at least the cursor), the paginated fetch over
[start, end] terminates within the end - start + 2 fuel bound — the cursor
strictly advances to the last page timestamp + 1 each iteration — and
returns exactly the concatenation of the fetched pages clipped to the end
of the window, deduplicated by timestamp and sorted ascending. -/
theorem crypto_pagination_terminates (provider : Nat → List Candle)
    (K startT endT : Nat)
    (hprog : ∀ c, ∀ r ∈ provider c, c ≤ r.ts)
    (hpage : ∀ c, (provider c).length ≤ K) :
    ∃ ps l,
      paginate provider K endT (endT - startT + 2) startT = some ps ∧
      fetch_ohlcv_crypto provider K startT endT = some l ∧
      l = postprocess endT ps.flatten ∧
      List.Sorted tsLE l ∧
      (l.map Candle.ts).Nodup ∧
      ∀ r ∈ l, r.ts ≤ endT := by
  obtain ⟨ps, hps⟩ := paginate_terminates provider K endT hprog
    (endT - startT + 2) startT (by omega)
  refine ⟨ps, postprocess endT ps.flatten, hps, ?_, rfl,
    postprocess_sorted endT ps.flatten, postprocess_nodup endT ps.flatten,
    postprocess_le endT ps.flatten⟩
  simp [fetch_ohlcv_crypto, hps]

/-- Provider stub for the pagination witness: five candles at timestamps
0..4, served in pages of at most two candles starting at the cursor. -/
def stubProvider (c : Nat) : List Candle :=
  (([⟨0, 1, 1, 1, 1, 1⟩, ⟨1, 2, 2, 2, 2, 2⟩, ⟨2, 3, 3, 3, 3, 3⟩,
      ⟨3, 4, 4, 4, 4, 4⟩, ⟨4, 5, 5, 5, 5, 5⟩] : List Candle).filter
    (fun r => decide (c ≤ r.ts))).take 2

/-- C2 witness: the stub provider is progressive with page size 2, and the
fetch over [0, 10] terminates with the clipped, deduplicated, sorted
concatenation of its pages. -/
theorem crypto_pagination_terminates_witness :
    ∃ ps l,
      paginate stubProvider 2 10 (10 - 0 + 2) 0 = some ps ∧
      fetch_ohlcv_crypto stubProvider 2 0 10 = some l ∧
      l = postprocess 10 ps.flatten ∧
      List.Sorted tsLE l ∧
      (l.map Candle.ts).Nodup ∧
      ∀ r ∈ l, r.ts ≤ 10 := by
  refine crypto_pagination_terminates stubProvider 2 0 10 ?_ ?_
  · intro c r hr
    have h1 := List.mem_of_mem_take hr
    rw [List.mem_filter] at h1
    simpa using h1.2
  · intro c
    exact List.length_take_le 2 _

end QuantLake
